import Mathlib

/-!
Verification of the agent-environment simulation/fitting engine
(utils/model.py): numeric guards, memory buffer, base-agent stubs,
the RL delta-rule agent, and the wrapper orchestration layer.
-/

/-- Overflow guard constant, 1e13 in the source. -/
def max_ : ℝ := 1e13

/-- Numerical epsilon constant, 1e-13 in the source. -/
def eps_ : ℝ := 1e-13

/-- clip_exp(x) = np.exp(np.clip(x, a_min=-max_, a_max=50)).
numpy clip is min(a_max, max(a_min, x)). -/
noncomputable def clip_exp (x : ℝ) : ℝ := Real.exp (min (max x (-max_)) 50)

/-- sigmoid = lambda x: 1 / (1 + clip_exp(-x)). -/
noncomputable def sigmoid (x : ℝ) : ℝ := 1 / (1 + clip_exp (-x))

/-!  Memory buffer (class simpleBuffer).  The Python dict is embedded as an
association list; push overwrites the whole mapping with a fresh copy, and
sample returns the single value for a one-key request, otherwise the list of
values in request order.  A missing key (Python KeyError) is Option.none. -/

structure simpleBuffer (α : Type) where
  m : List (String × α)

def simpleBuffer.push (_b : simpleBuffer α) (m_dict : List (String × α)) :
    simpleBuffer α :=
  ⟨m_dict⟩

def simpleBuffer.sample (b : simpleBuffer α) (ks : List String) :
    Option (α ⊕ List α) :=
  match ks.mapM (fun k => b.m.lookup k) with
  | none => none
  | some lst =>
    match lst with
    | [x] => some (Sum.inl x)
    | _ => some (Sum.inr lst)

/-!  Base model (class baseAgent).  The three capability stubs are written
in the source as return-statements whose value is the NotImplementedError
class object; no exception is raised.  A Python call is embedded as an
Except value: Except.ok means the call returned normally. -/

inductive pyRet where
  | notImplementedErrorCls

def baseAgent.load_params (_params : List ℝ) : Except String pyRet :=
  Except.ok pyRet.notImplementedErrorCls

def baseAgent.learn : Except String pyRet :=
  Except.ok pyRet.notImplementedErrorCls

def baseAgent.policy (_m : List ℝ) : Except String pyRet :=
  Except.ok pyRet.notImplementedErrorCls

/-!  The RL delta-rule agent.  Buffer cells may hold a number or a string
(the outcome indicator s is numeric, t_type and f_type may be labels). -/

inductive Val where
  | num (r : ℝ)
  | str (s : String)

structure RLState where
  alpha : ℝ
  beta : ℝ
  p1 : ℝ
  p_S : ℝ × ℝ
  o : Option String
  pi : Option (ℝ × ℝ)
  mem : simpleBuffer Val

/-- RL.p_trans: per-parameter transforms from gauss space to native space,
written in the source as two lambdas (sigmoid body and clip_exp). -/
noncomputable def RL.p_trans : List (ℝ → ℝ) :=
  [fun x => 1 / (1 + clip_exp (-x)), fun x => clip_exp x]

/-- RL.load_params: zip the transform list with the raw vector, apply each
transform, then read positions 0 and 1 (Python IndexError is none). -/
noncomputable def RL.load_params (params : List ℝ) : Option (ℝ × ℝ) :=
  match (RL.p_trans.zip params).map (fun fp => fp.1 fp.2) with
  | a :: b :: _ => some (a, b)
  | _ => none

/-- RL construction: baseAgent.__init__ runs load_params, then
_init_believes (the critic sets p1 = 1/2 and p_S = (1 - p1, p1); actor and
dists are pass), then _init_buffer with an empty buffer.  The attributes
o and pi are not yet set. -/
noncomputable def mkRL (params : List ℝ) : Option RLState :=
  (RL.load_params params).map
    (fun ab => ⟨ab.1, ab.2, 1 / 2, (1 - 1 / 2, 1 / 2), none, none, ⟨[]⟩⟩)

/-- RL.learn / RL._learn_critic: sample s, t_type and f_type from the
buffer (KeyError if missing), require s numeric (TypeError otherwise),
compute delta = s - p1, record the sign label, update p1 by alpha * delta
and refresh p_S = (1 - p1, p1). -/
noncomputable def RL.learn (st : RLState) : Option RLState :=
  match st.mem.sample ["s", "t_type", "f_type"] with
  | some (Sum.inr [Val.num s, _, _]) =>
    let delta := s - st.p1
    let o := if delta > 0 then "pos" else "neg"
    let p1' := st.p1 + st.alpha * delta
    some { st with p1 := p1', p_S := (1 - p1', p1'), o := some o }
  | _ => none

/-- Two-element softmax, the mathematical function computed by
scipy.special.softmax on a length-2 vector. -/
noncomputable def softmax2 (x : ℝ × ℝ) : ℝ × ℝ :=
  (Real.exp x.1 / (Real.exp x.1 + Real.exp x.2),
   Real.exp x.2 / (Real.exp x.1 + Real.exp x.2))

/-- RL.policy: pi = softmax(beta * p_S * m), elementwise product, cached
on the state and returned. -/
noncomputable def RL.policy (st : RLState) (m : ℝ × ℝ) : RLState × (ℝ × ℝ) :=
  let pi := softmax2 (st.beta * st.p_S.1 * m.1, st.beta * st.p_S.2 * m.2)
  ({ st with pi := some pi }, pi)

/-- RL.get_pS1. -/
def RL.get_pS1 (st : RLState) : ℝ := st.p_S.2

/-- RL.get_pi1: reads the cached pi attribute; AttributeError (none) when
policy has not run yet. -/
def RL.get_pi1 (st : RLState) : Option ℝ := st.pi.map (fun p => p.2)

/-!  Wrapper (class wrapper): likelihood scoring, prior evaluation,
diagnostic evaluation and forward simulation.  The wrapper is generic over
the agent and environment, so the embedding is parameterized by a trial
type, a subject-state type, a random-source type and a value type.  A
raised Python exception is Option.none. -/

/-- One prior distribution object, reduced to its logpdf evaluator.
A logpdf of negative infinity (zero density) is Option.none. -/
def Prior : Type := ℝ → Option ℝ

/-- wrapper.logprior: loop over zip(p_priors, params), adding
np.max([pri.logpdf(param), -max_]) each step. -/
noncomputable def wrapper.logprior (params : List ℝ) (p_priors : List Prior) : ℝ :=
  (p_priors.zip params).foldl
    (fun lpr pp => lpr + max ((pp.1 pp.2).getD (-max_)) (-max_)) 0

/-- An environment instance, as produced by env_fn(block_type): its
per-trial scoring function returns the trial log-likelihood contribution
and advances the subject state. -/
structure WEnv (τ σ : Type) where
  eval_fn : τ → σ → Option (ℝ × σ)

/-- The agent class handed to the wrapper: a constructor (load_params plus
belief initialization, which may fail) and the declared
variables-of-interest manifest. -/
structure WAgent (σ : Type) where
  mk_subj : List ℝ → Option σ
  voi : List String

/-- The per-trial loop of wrapper.loglike: ll += env.eval_fn(row, subj). -/
def loglike_loop (E : WEnv τ σ) : List τ → ℝ → σ → Option ℝ
  | [], ll, _ => some ll
  | row :: rest, ll, subj =>
    match E.eval_fn row subj with
    | none => none
    | some p => loglike_loop E rest (ll + p.1) p.2

/-- wrapper.loglike: read the block type off row 0 (KeyError on an empty
block), build the environment and a fresh subject, then accumulate the
per-trial scores. -/
def wrapper.loglike (env_fn : τ → WEnv τ σ) (A : WAgent σ) (params : List ℝ)
    (block : List τ) : Option ℝ :=
  match block with
  | [] => none
  | r0 :: _ =>
    match A.mk_subj params with
    | none => none
    | some subj => loglike_loop (env_fn r0) block 0 subj

/-- The list comprehension [loglike(params, sub_data[key]) for key] over
the blocks of the dataset; any failing block aborts. -/
def wrapper.loglikes (env_fn : τ → WEnv τ σ) (A : WAgent σ) (params : List ℝ) :
    List (List τ) → Option (List ℝ)
  | [] => some []
  | b :: bs =>
    match wrapper.loglike env_fn A params b with
    | none => none
    | some r => (wrapper.loglikes env_fn A params bs).map (fun rs => r :: rs)

/-- wrapper.loss_fn: negative summed log-likelihood, plus the negative
floored log-prior when a prior specification is supplied (p_priors is
checked against None). -/
noncomputable def wrapper.loss_fn (env_fn : τ → WEnv τ σ) (A : WAgent σ)
    (params : List ℝ) (sub_data : List (List τ)) (p_priors : Option (List Prior)) :
    Option ℝ :=
  match wrapper.loglikes env_fn A params sub_data with
  | none => none
  | some rs =>
    some (-rs.sum +
      (match p_priors with
       | none => 0
       | some ps => -(wrapper.logprior params ps)))

/-!  The per-trial output table of eval_block / sim_block: a pandas
DataFrame with named columns, one Option cell per trial (NaN is none). -/

/-- A fresh all-NaN table: np.zeros([n, len(col)]) + np.nan. -/
def colsInit (names : List String) (n : ℕ) : List (String × List (Option υ)) :=
  names.map (fun c => (c, List.replicate n none))

/-- pred_data.loc[t, name] = v : set the cell in every column carrying
that name. -/
def setCellv (cols : List (String × List (Option υ))) (name : String) (t : ℕ)
    (v : υ) : List (String × List (Option υ)) :=
  cols.map (fun c => if c.1 = name then (c.1, c.2.set t (some v)) else c)

/-- pred_data.dropna(axis=1, how='all'): drop the columns whose cells are
all missing. -/
def dropAllNone (cols : List (String × List (Option υ))) :
    List (String × List (Option υ)) :=
  cols.filter (fun c => c.2.any (fun x => x.isSome))

/-- The per-trial loop of wrapper.eval_block: score the trial and store
the contribution into the ll column at row t.  The loop that would store
the agent's variables of interest is commented out in the source. -/
def eval_loop (E : WEnv τ σ) :
    List τ → ℕ → List (String × List (Option ℝ)) → σ →
    Option (List (String × List (Option ℝ)) × σ)
  | [], _, cols, subj => some (cols, subj)
  | row :: rest, t, cols, subj =>
    match E.eval_fn row subj with
    | none => none
    | some p => eval_loop E rest (t + 1) (setCellv cols "ll" t p.1) p.2

/-- wrapper.eval_block: build environment and subject from row 0,
initialize a blank table with columns ['ll'] ++ agent.voi, run the trial
loop, drop all-missing columns, and concatenate onto the block data. -/
def wrapper.eval_block (env_fn : τ → WEnv τ σ) (A : WAgent σ) (params : List ℝ)
    (block : List τ) :
    Option (List τ × List (String × List (Option ℝ))) :=
  match block with
  | [] => none
  | r0 :: _ =>
    match A.mk_subj params with
    | none => none
    | some subj =>
      match eval_loop (env_fn r0) block 0
          (colsInit ("ll" :: A.voi) block.length) subj with
      | none => none
      | some res => some (block, dropAllNone res.1)

/-- Reference trajectory of per-trial scores for one block, used to state
what the ll column of eval_block holds. -/
def scores_loop (E : WEnv τ σ) : List τ → σ → Option (List ℝ)
  | [], _ => some []
  | row :: rest, subj =>
    match E.eval_fn row subj with
    | none => none
    | some p => (scores_loop E rest p.2).map (fun ls => p.1 :: ls)

/-- The per-trial log-likelihood contributions of one block, on the same
environment/subject trajectory as eval_block and loglike. -/
def block_scores (env_fn : τ → WEnv τ σ) (A : WAgent σ) (params : List ℝ)
    (block : List τ) : Option (List ℝ) :=
  match block with
  | [] => none
  | r0 :: _ =>
    match A.mk_subj params with
    | none => none
    | some subj => scores_loop (env_fn r0) block subj

/-!  Forward simulation and hook registration.  The wrapper attributes
touched here are use_hook and insights; sim threads them through blocks,
while the subject and the table are rebuilt per block. -/

structure WrapState (υ : Type) where
  use_hook : Bool
  insights : List (String × List υ)

/-- wrapper.register_hooks: turn recording on and give every requested
name a fresh empty log, discarding whatever was there before. -/
def wrapper.register_hooks (_w : WrapState υ) (names : List String) :
    WrapState υ :=
  ⟨true, names.map (fun k => (k, []))⟩

/-- An environment instance for simulation: the declared generated
variable names and the per-trial generative function, which returns the
generated values, the advanced subject and the advanced random source. -/
structure SimEnv (τ σ ρ υ : Type) where
  voi : List String
  sim_fn : τ → σ → ρ → Option (List υ × σ × ρ)

/-- The agent class as the simulator sees it: constructor, declared
variables of interest, and the name-indexed getters reached through
eval('subj.get_{name}()'); an unknown name is none (a NameError or
AttributeError at the point of use). -/
structure SimAgent (σ υ : Type) where
  mk_subj : List ℝ → Option σ
  voi : List String
  getv : σ → String → Option υ

/-- The loop for v in agent.voi storing pred_data.loc[t, v]. -/
def recAgentVoi (g : String → Option υ) (t : ℕ) :
    List String → List (String × List (Option υ)) →
    Option (List (String × List (Option υ)))
  | [], cols => some cols
  | v :: vs, cols =>
    match g v with
    | none => none
    | some val => recAgentVoi g t vs (setCellv cols v t val)

/-- The loop for k in insights.keys() appending the hooked getters; a
failing getter aborts the simulation. -/
def appendHooks (g : String → Option υ) :
    List (String × List υ) → Option (List (String × List υ))
  | [] => some []
  | kl :: rest =>
    match g kl.1 with
    | none => none
    | some val => (appendHooks g rest).map (fun r => (kl.1, kl.2 ++ [val]) :: r)

/-- The loop for i, v in enumerate(env.voi) storing subj_voi[i]; an
out-of-range index (env declared more variables than sim_fn returned) is
an IndexError. -/
def recEnvVoi (svoi : List υ) (t : ℕ) :
    ℕ → List String → List (String × List (Option υ)) →
    Option (List (String × List (Option υ)))
  | _, [], cols => some cols
  | i, v :: vs, cols =>
    match svoi.get? i with
    | none => none
    | some val => recEnvVoi svoi t (i + 1) vs (setCellv cols v t val)

/-- The per-trial loop of wrapper.sim_block, in source order: run the
generative call, store the agent's variables of interest, append the
hooked quantities when recording is on, then store the environment's
generated variables. -/
def sim_loop (E : SimEnv τ σ ρ υ) (A : SimAgent σ υ) (uh : Bool) :
    List τ → ℕ → List (String × List (Option υ)) → σ → ρ →
    List (String × List υ) →
    Option (List (String × List (Option υ)) × σ × ρ × List (String × List υ))
  | [], _, cols, s, r, ins => some (cols, s, r, ins)
  | row :: rest, t, cols, s, r, ins =>
    match E.sim_fn row s r with
    | none => none
    | some srr =>
      match recAgentVoi (A.getv srr.2.1) t A.voi cols with
      | none => none
      | some cols1 =>
        match (if uh then appendHooks (A.getv srr.2.1) ins else some ins) with
        | none => none
        | some ins' =>
          match recEnvVoi srr.1 t 0 E.voi cols1 with
          | none => none
          | some cols2 => sim_loop E A uh rest (t + 1) cols2 srr.2.1 srr.2.2 ins'

/-- wrapper.sim_block: environment and subject from row 0, blank table
with columns env.voi ++ agent.voi, trial loop, drop all-missing columns,
concatenate onto the block data; the mutated insights and random source
are carried out of the block. -/
def wrapper.sim_block (env_fn : τ → SimEnv τ σ ρ υ) (A : SimAgent σ υ)
    (params : List ℝ) (rng : ρ) (block : List τ) (w : WrapState υ) :
    Option ((List τ × List (String × List (Option υ))) × WrapState υ × ρ) :=
  match block with
  | [] => none
  | r0 :: _ =>
    match A.mk_subj params with
    | none => none
    | some subj =>
      match sim_loop (env_fn r0) A w.use_hook block 0
          (colsInit ((env_fn r0).voi ++ A.voi) block.length) subj rng
          w.insights with
      | none => none
      | some res =>
        some ((block, dropAllNone res.1), ⟨w.use_hook, res.2.2.2⟩, res.2.2.1)

/-- wrapper.sim: loop over the blocks of the dataset in order, collecting
each block's output table.  (The source also drops from the input block
data any column named like an environment-generated variable; trial
records are opaque here, so that projection is not modeled.) -/
def wrapper.sim (env_fn : τ → SimEnv τ σ ρ υ) (A : SimAgent σ υ)
    (params : List ℝ) :
    List (List τ) → WrapState υ → ρ →
    Option (List (List τ × List (String × List (Option υ))) × WrapState υ × ρ)
  | [], w, r => some ([], w, r)
  | b :: bs, w, r =>
    match wrapper.sim_block env_fn A params r b w with
    | none => none
    | some owr =>
      (wrapper.sim env_fn A params bs owr.2.1 owr.2.2).map
        (fun res => (owr.1 :: res.1, res.2.1, res.2.2))

/-!  Concrete instances used by scenario theorems and witnesses. -/

/-- The delta-rule scenario state: native parameters alpha = 0.5 and
beta = 1.0, initial belief pair (0.5, 0.5), and a buffer already pushed
with the outcome indicator s = 1 plus the t_type and f_type keys. -/
noncomputable def rlScen : RLState :=
  ⟨1 / 2, 1, 1 / 2, (1 / 2, 1 / 2), none, none,
   ⟨[("s", Val.num 1), ("t_type", Val.str "sta"), ("f_type", Val.str "gain")]⟩⟩

/-- The state the scenario reaches after one learn call. -/
noncomputable def rlScenAfter : RLState :=
  ⟨1 / 2, 1, 3 / 4, (1 / 4, 3 / 4), some "pos", none, rlScen.mem⟩

/-- Buffer after push [a: 1, b: 2]. -/
def bufEx1 : simpleBuffer ℕ := simpleBuffer.push ⟨[]⟩ [("a", 1), ("b", 2)]

/-- Buffer after the subsequent push [a: 3]. -/
def bufEx2 : simpleBuffer ℕ := simpleBuffer.push bufEx1 [("a", 3)]

/-- A trivial scoring environment: every trial scores 0 and leaves the
subject unchanged. -/
def wenvTriv : Unit → WEnv Unit Unit := fun _ => ⟨fun _ _ => some (0, ())⟩

/-- An agent class declaring one variable of interest named x. -/
def wagentX : WAgent Unit := ⟨fun _ => some (), ["x"]⟩

/-- An agent class declaring no variable of interest. -/
def wagent0 : WAgent Unit := ⟨fun _ => some (), []⟩

/-- A trivial generative environment emitting no variables. -/
def senvTriv : Unit → SimEnv Unit Unit Unit ℕ :=
  fun _ => ⟨[], fun _ _ _ => some ([], (), ())⟩

/-- A simulation agent with a single getter named h. -/
def sagentH : SimAgent Unit ℕ :=
  ⟨fun _ => some (), [], fun _ k => if k = "h" then some 0 else none⟩

/-- A prior assigning zero density everywhere (logpdf negative infinity). -/
def priorZero : Prior := fun _ => none

/-- The RL state constructed by mkRL from the raw vector [0, 0]. -/
noncomputable def rlW0 : RLState :=
  ⟨1 / (1 + clip_exp (-0)), clip_exp 0, 1 / 2, (1 - 1 / 2, 1 / 2),
   none, none, ⟨[]⟩⟩

/-!  Helper lemmas. -/

theorem clip_exp_zero : clip_exp 0 = 1 := by
  have h1 : max (0 : ℝ) (-max_) = 0 := by
    apply max_eq_left; norm_num [max_]
  have h2 : min (0 : ℝ) (50 : ℝ) = 0 := by norm_num
  rw [clip_exp, h1, h2, Real.exp_zero]

theorem sigmoid_zero : sigmoid 0 = 1 / 2 := by
  rw [sigmoid, neg_zero, clip_exp_zero]; norm_num

/-- Evaluating one learn call on the scenario state. -/
theorem learn_rlScen : RL.learn rlScen = some rlScenAfter := by
  have hs : rlScen.mem.sample ["s", "t_type", "f_type"] =
      some (Sum.inr [Val.num 1, Val.str "sta", Val.str "gain"]) := rfl
  rw [RL.learn, hs]
  have hpos : ((1 : ℝ) - rlScen.p1) > 0 := by norm_num [rlScen]
  simp only [if_pos hpos]
  simp only [rlScen, rlScenAfter, RLState.mk.injEq, Option.some.injEq]
  norm_num

theorem softmax2_sum (x : ℝ × ℝ) : (softmax2 x).1 + (softmax2 x).2 = 1 := by
  have hd : (0 : ℝ) < Real.exp x.1 + Real.exp x.2 := by positivity
  show Real.exp x.1 / (Real.exp x.1 + Real.exp x.2) +
      Real.exp x.2 / (Real.exp x.1 + Real.exp x.2) = 1
  rw [div_add_div_same, div_self (ne_of_gt hd)]

theorem policy_snd (st : RLState) (m : ℝ × ℝ) :
    (RL.policy st m).2 =
      softmax2 (st.beta * st.p_S.1 * m.1, st.beta * st.p_S.2 * m.2) := rfl

theorem list_foldl_add_map (f : α → ℝ) :
    ∀ (l : List α) (init : ℝ),
      l.foldl (fun acc x => acc + f x) init = init + (l.map f).sum := by
  intro l
  induction l with
  | nil => intro init; simp
  | cons a t ih =>
    intro init
    simp only [List.foldl_cons, List.map_cons, List.sum_cons, ih]
    ring

theorem list_sum_ge (c : ℝ) :
    ∀ l : List ℝ, (∀ x ∈ l, c ≤ x) → c * l.length ≤ l.sum := by
  intro l
  induction l with
  | nil => intro _; simp
  | cons a t ih =>
    intro h
    have ha := h a (List.mem_cons_self a t)
    have ht := ih (fun x hx => h x (List.mem_cons_of_mem a hx))
    simp only [List.sum_cons, List.length_cons]
    push_cast
    have hexp : c * ((t.length : ℝ) + 1) = c * (t.length : ℝ) + c := by ring
    rw [hexp]
    linarith

/-- Claim C1: calling learn, policy or load_params on the abstract base
agent.  The source writes return NotImplementedError, so each call
returns the exception class as an ordinary value and raises nothing;
this contradicts the claim that the calls fail loudly, and is a slip
against the documented intent. -/
theorem base_methods_return_without_raising :
    ∀ (params m : List ℝ),
      baseAgent.load_params params = Except.ok pyRet.notImplementedErrorCls
      ∧ baseAgent.learn = Except.ok pyRet.notImplementedErrorCls
      ∧ baseAgent.policy m = Except.ok pyRet.notImplementedErrorCls := by
  intro params m
  exact ⟨rfl, rfl, rfl⟩

/-- Claim C9: clip_exp equals the exponential of its input clipped into
[-1e13, 50], hence is positive and never exceeds exp 50, and sigmoid is
1 / (1 + clip_exp(-x)), reusing the clipped exponential on the negated
input. -/
theorem clip_exp_clipped_bounded_sigmoid :
    ∀ x : ℝ,
      clip_exp x = Real.exp (min (max x (-max_)) 50)
      ∧ clip_exp x ≤ Real.exp 50
      ∧ 0 < clip_exp x
      ∧ sigmoid x = 1 / (1 + clip_exp (-x)) := by
  intro x
  refine ⟨rfl, ?_, Real.exp_pos _, rfl⟩
  exact Real.exp_le_exp.mpr (min_le_right _ _)

/-- Claim C5: after push [a: 1, b: 2] the buffer samples a and b as 1 and
2 in that order; after a subsequent push [a: 3] sampling b is a lookup
error, because push replaces the whole contents and any key absent from
the latest push is unretrievable. -/
theorem simpleBuffer_push_replaces_sample :
    bufEx1.sample ["a", "b"] = some (Sum.inr [1, 2])
    ∧ bufEx2.sample ["b"] = none
    ∧ (∀ (α : Type) (b : simpleBuffer α) (md : List (String × α)),
        (b.push md).m = md)
    ∧ (∀ (α : Type) (b : simpleBuffer α) (md : List (String × α)) (k : String),
        (b.push md).sample [k] = (md.lookup k).map Sum.inl) := by
  refine ⟨rfl, rfl, fun α b md => rfl, fun α b md k => ?_⟩
  cases h : md.lookup k with
  | none =>
    simp [simpleBuffer.sample, simpleBuffer.push, List.mapM, List.mapM.loop, h]
  | some v =>
    simp [simpleBuffer.sample, simpleBuffer.push, List.mapM, List.mapM.loop, h]

/-- Claim C3, counterexample: a raw vector of length 3 against the
declared two transforms does not fail; zip truncation silently ignores
the extra entry and load_params succeeds. -/
theorem load_params_extra_ignored_cex :
    RL.load_params [0, 0, 0] = some (1 / 2, 1) := by
  have h : RL.load_params [0, 0, 0] =
      some (1 / (1 + clip_exp (-0)), clip_exp 0) := rfl
  rw [h, neg_zero, clip_exp_zero]
  norm_num

/-- Claim C3 as amended: a too-short raw vector fails fast with an index
error at the first missing position, while a vector longer than the two
declared transforms succeeds, its extra entries silently ignored by zip
truncation. -/
theorem load_params_zip_truncates :
    (∀ params : List ℝ, params.length < 2 → RL.load_params params = none)
    ∧ (∀ (p0 p1 : ℝ) (rest : List ℝ),
        RL.load_params (p0 :: p1 :: rest) = some (sigmoid p0, clip_exp p1)) := by
  constructor
  · intro params h
    match params with
    | [] => rfl
    | [p] => rfl
    | p0 :: p1 :: rest => simp only [List.length_cons] at h; omega
  · intro p0 p1 rest
    rfl

/-- Witness for the amended claim C3: length-1 input fails, length-3
input succeeds. -/
theorem load_params_zip_truncates_witness :
    ([(0 : ℝ)].length < 2)
    ∧ RL.load_params [(0 : ℝ)] = none
    ∧ RL.load_params [0, 0, 5] = some (sigmoid 0, clip_exp 0) :=
  ⟨by norm_num,
   load_params_zip_truncates.1 [(0 : ℝ)] (by norm_num),
   load_params_zip_truncates.2 0 0 [5]⟩

/-- Claim C7: the delta-rule scenario.  With native parameters
alpha = 0.5 and beta = 1.0 and initial belief pair (0.5, 0.5), one learn
call on a buffer holding s = 1 (with t_type and f_type present) yields
the belief pair (0.25, 0.75), and a subsequent policy call on the
modulation vector (1, 1) returns a two-element distribution summing to 1
within 1e-9. -/
theorem rl_delta_rule_scenario :
    RL.learn rlScen = some rlScenAfter
    ∧ rlScenAfter.p_S = (1 / 4, 3 / 4)
    ∧ |(RL.policy rlScenAfter (1, 1)).2.1 +
        (RL.policy rlScenAfter (1, 1)).2.2 - 1| ≤ 1e-9 := by
  refine ⟨learn_rlScen, rfl, ?_⟩
  rw [policy_snd, softmax2_sum]
  norm_num

/-- Claim C8: the belief pair always equals (1 - p1, p1), at construction
and after every learn call, whatever the buffered outcomes; its two
components sum to exactly 1. -/
theorem rl_pS_complement_invariant :
    (∀ (params : List ℝ) (st : RLState), mkRL params = some st →
        st.p_S = (1 - st.p1, st.p1) ∧ st.p_S.1 + st.p_S.2 = 1)
    ∧ (∀ (st st' : RLState), RL.learn st = some st' →
        st'.p_S = (1 - st'.p1, st'.p1) ∧ st'.p_S.1 + st'.p_S.2 = 1) := by
  constructor
  · intro params st h
    rw [mkRL] at h
    cases hl : RL.load_params params with
    | none => rw [hl] at h; simp at h
    | some ab =>
      rw [hl] at h
      simp only [Option.map_some', Option.some.injEq] at h
      subst h
      exact ⟨rfl, by norm_num⟩
  · intro st st' h
    unfold RL.learn at h
    split at h
    · simp only [Option.some.injEq] at h
      subst h
      exact ⟨rfl, by ring⟩
    · exact absurd h (by simp)

/-- Witness for claim C8: the invariant applied to the concrete
construction mkRL [0, 0] and to the concrete learn step of the scenario
state. -/
theorem rl_pS_complement_invariant_witness :
    mkRL [0, 0] = some rlW0
    ∧ (rlW0.p_S = (1 - rlW0.p1, rlW0.p1) ∧ rlW0.p_S.1 + rlW0.p_S.2 = 1)
    ∧ RL.learn rlScen = some rlScenAfter
    ∧ (rlScenAfter.p_S = (1 - rlScenAfter.p1, rlScenAfter.p1)
       ∧ rlScenAfter.p_S.1 + rlScenAfter.p_S.2 = 1) :=
  ⟨rfl,
   rl_pS_complement_invariant.1 [0, 0] rlW0 rfl,
   learn_rlScen,
   rl_pS_complement_invariant.2 rlScen rlScenAfter learn_rlScen⟩

/-- Claim C6: logprior is the sum over aligned positions of the floored
prior log-densities; every summand is at least -1e13, so the total is
bounded below by -1e13 times the parameter count, and the function is
total (a zero-density prior contributes the floor, no exception). -/
theorem logprior_floored_sum_bounded (params : List ℝ) (ps : List Prior)
    (h : ps.length = params.length) :
    wrapper.logprior params ps
        = ((ps.zip params).map
            (fun pp => max ((pp.1 pp.2).getD (-max_)) (-max_))).sum
    ∧ (∀ pp ∈ ps.zip params, -max_ ≤ max ((pp.1 pp.2).getD (-max_)) (-max_))
    ∧ -(max_ * params.length) ≤ wrapper.logprior params ps := by
  have he : wrapper.logprior params ps
      = ((ps.zip params).map
          (fun pp => max ((pp.1 pp.2).getD (-max_)) (-max_))).sum := by
    rw [wrapper.logprior, list_foldl_add_map, zero_add]
  refine ⟨he, fun pp _ => le_max_right _ _, ?_⟩
  rw [he]
  have hb := list_sum_ge (-max_)
    ((ps.zip params).map (fun pp => max ((pp.1 pp.2).getD (-max_)) (-max_)))
    (by
      intro x hx
      obtain ⟨pp, _, rfl⟩ := List.mem_map.mp hx
      exact le_max_right _ _)
  have hlen : ((ps.zip params).map
      (fun pp => max ((pp.1 pp.2).getD (-max_)) (-max_))).length
      = params.length := by
    simp [List.length_zip, h]
  rw [hlen] at hb
  calc -(max_ * (params.length : ℝ)) = -max_ * (params.length : ℝ) := by ring
    _ ≤ _ := hb

/-- Witness for claim C6: one parameter at 0 against one zero-density
prior; the floored logprior is bounded below by -1e13 times 1. -/
theorem logprior_floored_sum_bounded_witness :
    [priorZero].length = [(0 : ℝ)].length
    ∧ -(max_ * ([(0 : ℝ)].length : ℕ)) ≤ wrapper.logprior [(0 : ℝ)] [priorZero] :=
  ⟨rfl, (logprior_floored_sum_bounded [(0 : ℝ)] [priorZero] rfl).2.2⟩

theorem loglike_loop_total (E : WEnv τ σ)
    (hev : ∀ (r : τ) (s : σ), (E.eval_fn r s).isSome = true) :
    ∀ (trials : List τ) (ll : ℝ) (subj : σ),
      (loglike_loop E trials ll subj).isSome = true := by
  intro trials
  induction trials with
  | nil => intro ll subj; rfl
  | cons r rest ih =>
    intro ll subj
    cases he : E.eval_fn r subj with
    | none =>
      have h := hev r subj
      rw [he] at h
      simp at h
    | some p =>
      simp only [loglike_loop, he]
      exact ih _ _

/-- Claim C4: whenever the subject constructs and every per-trial scoring
call succeeds, loglike returns a real number for each (nonempty) block of
the dataset, and loss_fn with no prior supplied is exactly the negated
sum of the per-block loglike values. -/
theorem loglike_defined_loss_neg_sum (env_fn : τ → WEnv τ σ) (A : WAgent σ)
    (params : List ℝ) (data : List (List τ))
    (hsub : (A.mk_subj params).isSome = true)
    (hev : ∀ (r0 r : τ) (s : σ), ((env_fn r0).eval_fn r s).isSome = true)
    (hne : ∀ b ∈ data, b ≠ []) :
    (∀ b ∈ data, (wrapper.loglike env_fn A params b).isSome = true)
    ∧ wrapper.loss_fn env_fn A params data none
        = (wrapper.loglikes env_fn A params data).map (fun rs => -rs.sum)
    ∧ (wrapper.loglikes env_fn A params data).isSome = true := by
  have hbl : ∀ b : List τ, b ≠ [] →
      (wrapper.loglike env_fn A params b).isSome = true := by
    intro b hb
    match b with
    | [] => exact absurd rfl hb
    | r0 :: rest =>
      cases hm : A.mk_subj params with
      | none => rw [hm] at hsub; simp at hsub
      | some subj =>
        simp only [wrapper.loglike, hm]
        exact loglike_loop_total (env_fn r0) (hev r0) (r0 :: rest) 0 subj
  have hls : ∀ ds : List (List τ), (∀ b ∈ ds, b ≠ []) →
      (wrapper.loglikes env_fn A params ds).isSome = true := by
    intro ds
    induction ds with
    | nil => intro _; rfl
    | cons b bs ih =>
      intro hds
      have h1 := hbl b (hds b (List.mem_cons_self b bs))
      cases hk : wrapper.loglike env_fn A params b with
      | none => rw [hk] at h1; simp at h1
      | some r =>
        have h2 := ih (fun x hx => hds x (List.mem_cons_of_mem b hx))
        cases hks : wrapper.loglikes env_fn A params bs with
        | none => rw [hks] at h2; simp at h2
        | some rs => simp [wrapper.loglikes, hk, hks]
  have heq : wrapper.loss_fn env_fn A params data none
      = (wrapper.loglikes env_fn A params data).map (fun rs => -rs.sum) := by
    cases hks : wrapper.loglikes env_fn A params data with
    | none => simp [wrapper.loss_fn, hks]
    | some rs => simp [wrapper.loss_fn, hks]
  exact ⟨fun b hb => hbl b (hne b hb), heq, hls data hne⟩

/-- Witness for claim C4: a two-block dataset under a trivial scoring
environment. -/
theorem loglike_defined_loss_neg_sum_witness :
    (wagent0.mk_subj []).isSome = true
    ∧ (∀ (r0 r : Unit) (s : Unit), ((wenvTriv r0).eval_fn r s).isSome = true)
    ∧ (∀ b ∈ [[()], [(), ()]], b ≠ ([] : List Unit))
    ∧ wrapper.loss_fn wenvTriv wagent0 [] [[()], [(), ()]] none
        = (wrapper.loglikes wenvTriv wagent0 [] [[()], [(), ()]]).map
            (fun rs => -rs.sum)
    ∧ (wrapper.loglikes wenvTriv wagent0 [] [[()], [(), ()]]).isSome = true := by
  have h := loglike_defined_loss_neg_sum wenvTriv wagent0 [] [[()], [(), ()]]
    rfl (fun _ _ _ => rfl) (by decide)
  exact ⟨rfl, fun _ _ _ => rfl, by decide, h.2.1, h.2.2⟩

theorem list_set_append_len {γ : Type} :
    ∀ (l1 l2 : List γ) (v : γ),
      (l1 ++ l2).set l1.length v = l1 ++ l2.set 0 v := by
  intro l1
  induction l1 with
  | nil => intro l2 v; rfl
  | cons a t ih =>
    intro l2 v
    simp only [List.cons_append, List.length_cons, List.set_cons_succ]
    exact congrArg (fun l => a :: l) (ih l2 v)

theorem setCellv_skip {υ : Type} (name : String) (t : ℕ) (v : υ) :
    ∀ cols : List (String × List (Option υ)),
      (∀ c ∈ cols, c.1 ≠ name) → setCellv cols name t v = cols := by
  intro cols
  induction cols with
  | nil => intro _; rfl
  | cons c rest ih =>
    intro h
    simp only [setCellv, List.map_cons]
    rw [if_neg (h c (List.mem_cons_self c rest))]
    congr 1
    exact ih (fun x hx => h x (List.mem_cons_of_mem c hx))

theorem setCellv_ll_head {υ : Type} (vals : List (Option υ))
    (voiCols : List (String × List (Option υ))) (t : ℕ) (v : υ)
    (hvoi : ∀ c ∈ voiCols, c.1 ≠ "ll") :
    setCellv (("ll", vals) :: voiCols) "ll" t v
      = ("ll", vals.set t (some v)) :: voiCols := by
  simp only [setCellv, List.map_cons, if_true]
  congr 1
  exact setCellv_skip "ll" t v voiCols hvoi

theorem replicate_none_any_false {υ : Type} (n : ℕ) :
    (List.replicate n (none : Option υ)).any (fun x => x.isSome) = false := by
  induction n with
  | zero => rfl
  | succ n ih => simp [List.replicate_succ, ih]

theorem scores_loop_spec (E : WEnv τ σ)
    (hev : ∀ r s, (E.eval_fn r s).isSome = true) :
    ∀ (trials : List τ) (subj : σ),
      ∃ ls : List ℝ, scores_loop E trials subj = some ls
        ∧ ls.length = trials.length := by
  intro trials
  induction trials with
  | nil => intro subj; exact ⟨[], rfl, rfl⟩
  | cons row rest ih =>
    intro subj
    cases he : E.eval_fn row subj with
    | none =>
      have h := hev row subj
      rw [he] at h
      simp at h
    | some p =>
      obtain ⟨ls, h1, h2⟩ := ih p.2
      exact ⟨p.1 :: ls, by simp [scores_loop, he, h1], by simp [h2]⟩

theorem eval_loop_ll (E : WEnv τ σ) :
    ∀ (trials : List τ) (subj : σ) (ls : List ℝ) (pre : List (Option ℝ))
      (voiCols : List (String × List (Option ℝ))),
      scores_loop E trials subj = some ls →
      (∀ c ∈ voiCols, c.1 ≠ "ll") →
      ∃ s', eval_loop E trials pre.length
          (("ll", pre ++ List.replicate trials.length none) :: voiCols) subj
        = some (("ll", pre ++ ls.map some) :: voiCols, s') := by
  intro trials
  induction trials with
  | nil =>
    intro subj ls pre voiCols hs _
    simp only [scores_loop, Option.some.injEq] at hs
    subst hs
    exact ⟨subj, by simp [eval_loop]⟩
  | cons row rest ih =>
    intro subj ls pre voiCols hs hvoi
    cases he : E.eval_fn row subj with
    | none =>
      simp only [scores_loop, he] at hs
      exact Option.noConfusion hs
    | some p =>
      simp only [scores_loop, he] at hs
      cases hr : scores_loop E rest p.2 with
      | none => rw [hr] at hs; simp at hs
      | some ls' =>
        rw [hr] at hs
        simp only [Option.map_some', Option.some.injEq] at hs
        subst hs
        have hset : setCellv
            (("ll", pre ++ List.replicate (rest.length + 1) none) :: voiCols)
            "ll" pre.length p.1
            = ("ll", (pre ++ [some p.1]) ++ List.replicate rest.length none)
              :: voiCols := by
          rw [setCellv_ll_head _ _ _ _ hvoi]
          congr 1
          rw [List.replicate_succ, list_set_append_len]
          simp [List.set]
        obtain ⟨s', hs'⟩ := ih p.2 ls' (pre ++ [some p.1]) voiCols hr hvoi
        refine ⟨s', ?_⟩
        simp only [List.length_cons, eval_loop, he, hset]
        have hlen : pre.length + 1 = (pre ++ [some p.1]).length := by simp
        rw [hlen, hs']
        simp

/-- Claim C2 as amended: per block, eval_block records per trial only the
log-likelihood contribution; the columns initialized for the agent's
declared variables of interest are never populated (the recording loop is
disabled in the source), so they are dropped as all-missing, and the
surviving ll column, aligned per trial, is concatenated onto the original
trial data. -/
theorem eval_block_ll_only (env_fn : τ → WEnv τ σ) (A : WAgent σ)
    (params : List ℝ) (block : List τ)
    (hne : block ≠ [])
    (hll : "ll" ∉ A.voi)
    (hsub : (A.mk_subj params).isSome = true)
    (hev : ∀ (r0 r : τ) (s : σ), ((env_fn r0).eval_fn r s).isSome = true) :
    wrapper.eval_block env_fn A params block
      = (block_scores env_fn A params block).map
          (fun ls => (block, [("ll", ls.map some)]))
    ∧ (block_scores env_fn A params block).map List.length
      = some block.length := by
  match block, hne with
  | r0 :: rest, _ =>
    cases hm : A.mk_subj params with
    | none => rw [hm] at hsub; simp at hsub
    | some subj =>
      obtain ⟨ls, hsc, hlen⟩ :=
        scores_loop_spec (env_fn r0) (hev r0) (r0 :: rest) subj
      have hbs : block_scores env_fn A params (r0 :: rest) = some ls := by
        simp [block_scores, hm, hsc]
      have hvoi : ∀ c ∈ A.voi.map
          (fun c => (c, List.replicate (r0 :: rest).length (none : Option ℝ))),
          c.1 ≠ "ll" := by
        intro c hc
        obtain ⟨v, hv, rfl⟩ := List.mem_map.mp hc
        intro hbad
        exact hll (hbad ▸ hv)
      obtain ⟨s', hloop⟩ := eval_loop_ll (env_fn r0) (r0 :: rest) subj ls []
        (A.voi.map
          (fun c => (c, List.replicate (r0 :: rest).length (none : Option ℝ))))
        hsc hvoi
      simp only [List.nil_append, List.length_nil] at hloop
      have hlsne : ls ≠ [] := by
        intro hh
        rw [hh] at hlen
        simp at hlen
      have hkeep : (ls.map some).any (fun x => x.isSome) = true := by
        match ls, hlsne with
        | a :: ls', _ => simp
      have hdropped : (A.voi.map fun c =>
          (c, List.replicate (r0 :: rest).length (none : Option ℝ))).filter
            (fun c => c.2.any fun x => x.isSome) = [] := by
        rw [List.filter_eq_nil_iff]
        intro c hc
        obtain ⟨v, hv, rfl⟩ := List.mem_map.mp hc
        simp [replicate_none_any_false]
      constructor
      · rw [hbs]
        simp only [Option.map_some']
        have hcols : colsInit ("ll" :: A.voi) (r0 :: rest).length
            = ("ll", List.replicate (r0 :: rest).length (none : Option ℝ))
              :: A.voi.map
                (fun c => (c, List.replicate (r0 :: rest).length none)) := by
          simp [colsInit]
        simp only [wrapper.eval_block, hm, hcols, hloop]
        simp [dropAllNone, hkeep, hdropped]
      · rw [hbs]
        simp [hlen]

/-- Witness for claim C2 as amended: a one-trial block with a declared
variable of interest named x under the trivial scoring environment. -/
theorem eval_block_ll_only_witness :
    ([()] ≠ ([] : List Unit))
    ∧ "ll" ∉ wagentX.voi
    ∧ (wagentX.mk_subj []).isSome = true
    ∧ wrapper.eval_block wenvTriv wagentX [] [()]
        = (block_scores wenvTriv wagentX [] [()]).map
            (fun ls => ([()], [("ll", ls.map some)])) := by
  refine ⟨by simp, by decide, rfl, ?_⟩
  exact (eval_block_ll_only wenvTriv wagentX [] [()] (by simp) (by decide)
    rfl (fun _ _ _ => rfl)).1

/-- Claim C2, counterexample: the agent declares the variable of interest
x, yet the evaluation output for a one-trial block contains only the ll
column; no x column is recorded. -/
theorem eval_block_voi_dropped_cex :
    "x" ∈ wagentX.voi
    ∧ wrapper.eval_block wenvTriv wagentX [] [()]
        = some ([()], [("ll", [some (0 : ℝ)])]) := by
  exact ⟨by decide, rfl⟩

theorem lookup_register_init {υ : Type} (names : List String) (k : String)
    (hk : k ∈ names) :
    (names.map (fun n => (n, ([] : List υ)))).lookup k = some [] := by
  induction names with
  | nil => cases hk
  | cons n rest ih =>
    by_cases h : k = n
    · subst h
      simp [List.lookup]
    · have hk' : k ∈ rest := by
        cases hk with
        | head => exact absurd rfl h
        | tail _ hmem => exact hmem
      simp only [List.map_cons, List.lookup]
      rw [show (k == n) = false from beq_eq_false_iff_ne.mpr h]
      exact ih hk'

theorem appendHooks_lookup {υ : Type} (g : String → Option υ) :
    ∀ (ins ins' : List (String × List υ)), appendHooks g ins = some ins' →
      ∀ k, (ins'.lookup k).map List.length
        = (ins.lookup k).map (fun l => l.length + 1) := by
  intro ins
  induction ins with
  | nil =>
    intro ins' h k
    simp only [appendHooks, Option.some.injEq] at h
    subst h
    rfl
  | cons kl rest ih =>
    intro ins' h k
    cases hg : g kl.1 with
    | none =>
      simp only [appendHooks, hg] at h
      exact Option.noConfusion h
    | some val =>
      simp only [appendHooks, hg] at h
      cases hr : appendHooks g rest with
      | none => rw [hr] at h; simp at h
      | some r =>
        rw [hr] at h
        simp only [Option.map_some', Option.some.injEq] at h
        subst h
        by_cases hk : k = kl.1
        · subst hk
          simp [List.lookup]
        · simp only [List.lookup,
            show (k == kl.1) = false from beq_eq_false_iff_ne.mpr hk]
          exact ih r hr k

theorem sim_loop_lookup (E : SimEnv τ σ ρ υ) (A : SimAgent σ υ) :
    ∀ (trials : List τ) (t : ℕ) (cols : List (String × List (Option υ)))
      (s : σ) (r : ρ) (ins : List (String × List υ)) res,
      sim_loop E A true trials t cols s r ins = some res →
      ∀ k, (res.2.2.2.lookup k).map List.length
        = (ins.lookup k).map (fun l => l.length + trials.length) := by
  intro trials
  induction trials with
  | nil =>
    intro t cols s r ins res h k
    simp only [sim_loop, Option.some.injEq] at h
    subst h
    cases hlk : ins.lookup k <;> simp
  | cons row rest ih =>
    intro t cols s r ins res h k
    cases h1 : E.sim_fn row s r with
    | none =>
      simp only [sim_loop, h1] at h
      exact Option.noConfusion h
    | some srr =>
      simp only [sim_loop, h1] at h
      cases h2 : recAgentVoi (A.getv srr.2.1) t A.voi cols with
      | none => rw [h2] at h; simp at h
      | some cols1 =>
        rw [h2] at h
        simp only [if_true] at h
        cases h3 : appendHooks (A.getv srr.2.1) ins with
        | none => rw [h3] at h; simp at h
        | some ins' =>
          rw [h3] at h
          cases h4 : recEnvVoi srr.1 t 0 E.voi cols1 with
          | none => rw [h4] at h; simp at h
          | some cols2 =>
            rw [h4] at h
            have hih := ih (t + 1) cols2 srr.2.1 srr.2.2 ins' res h k
            have hap := appendHooks_lookup (A.getv srr.2.1) ins ins' h3 k
            cases hlk : ins.lookup k with
            | none =>
              rw [hlk] at hap
              have hin' : ins'.lookup k = none := by
                cases h' : ins'.lookup k with
                | none => rfl
                | some l => rw [h'] at hap; simp at hap
              rw [hin'] at hih
              rw [hih]
              simp
            | some l =>
              rw [hlk] at hap
              cases h' : ins'.lookup k with
              | none => rw [h'] at hap; simp at hap
              | some l' =>
                rw [h'] at hap
                simp only [Option.map_some', Option.some.injEq] at hap
                rw [h'] at hih
                simp only [Option.map_some'] at hih
                rw [hih, hap]
                simp only [Option.map_some', Option.some.injEq,
                  List.length_cons]
                omega

theorem sim_block_lookup (env_fn : τ → SimEnv τ σ ρ υ) (A : SimAgent σ υ)
    (params : List ℝ) (rng : ρ) (block : List τ) (w : WrapState υ)
    (out : List τ × List (String × List (Option υ))) (w' : WrapState υ)
    (r' : ρ)
    (h : wrapper.sim_block env_fn A params rng block w = some (out, w', r'))
    (huh : w.use_hook = true) :
    w'.use_hook = true
    ∧ ∀ k, (w'.insights.lookup k).map List.length
      = (w.insights.lookup k).map (fun l => l.length + block.length) := by
  match block with
  | [] => exact Option.noConfusion h
  | r0 :: rest =>
    cases hm : A.mk_subj params with
    | none =>
      simp only [wrapper.sim_block, hm] at h
      exact Option.noConfusion h
    | some subj =>
      simp only [wrapper.sim_block, hm] at h
      cases hs : sim_loop (env_fn r0) A w.use_hook (r0 :: rest) 0
          (colsInit ((env_fn r0).voi ++ A.voi) (r0 :: rest).length) subj rng
          w.insights with
      | none => rw [hs] at h; exact Option.noConfusion h
      | some res =>
        rw [hs] at h
        simp only [Option.some.injEq] at h
        injection h with h1 h2
        injection h2 with h2 h3
        subst h2
        rw [huh] at hs
        refine ⟨huh, fun k => ?_⟩
        exact sim_loop_lookup (env_fn r0) A (r0 :: rest) 0 _ subj rng
          w.insights res hs k

theorem sim_lookup (env_fn : τ → SimEnv τ σ ρ υ) (A : SimAgent σ υ)
    (params : List ℝ) :
    ∀ (ds : List (List τ)) (w : WrapState υ) (r : ρ) outs (w' : WrapState υ)
      (r' : ρ),
      wrapper.sim env_fn A params ds w r = some (outs, w', r') →
      w.use_hook = true →
      w'.use_hook = true
      ∧ ∀ k, (w'.insights.lookup k).map List.length
        = (w.insights.lookup k).map
            (fun l => l.length + (ds.map List.length).sum) := by
  intro ds
  induction ds with
  | nil =>
    intro w r outs w' r' h huh
    simp only [wrapper.sim, Option.some.injEq] at h
    injection h with h1 h2
    injection h2 with h2 h3
    subst h2
    refine ⟨huh, fun k => ?_⟩
    cases hlk : w.insights.lookup k <;> simp
  | cons b bs ih =>
    intro w r outs w' r' h huh
    cases hb : wrapper.sim_block env_fn A params r b w with
    | none =>
      simp only [wrapper.sim, hb] at h
      exact Option.noConfusion h
    | some owr =>
      simp only [wrapper.sim, hb] at h
      cases hrec : wrapper.sim env_fn A params bs owr.2.1 owr.2.2 with
      | none => rw [hrec] at h; simp at h
      | some res =>
        rw [hrec] at h
        simp only [Option.map_some', Option.some.injEq] at h
        injection h with h1 h2
        injection h2 with h2 h3
        subst h2
        have hblk := sim_block_lookup env_fn A params r b w owr.1 owr.2.1
          owr.2.2 (by rw [hb]) huh
        have hrest := ih owr.2.1 owr.2.2 res.1 res.2.1 res.2.2
          (by rw [hrec]) hblk.1
        refine ⟨hrest.1, fun k => ?_⟩
        have h1' := hblk.2 k
        have h2' := hrest.2 k
        cases hlk : w.insights.lookup k with
        | none =>
          rw [hlk] at h1'
          simp only [Option.map_none'] at h1'
          have hmid : owr.2.1.insights.lookup k = none := by
            cases h' : owr.2.1.insights.lookup k with
            | none => rfl
            | some l => rw [h'] at h1'; simp at h1'
          rw [hmid] at h2'
          simp only [Option.map_none'] at h2'
          cases h'' : res.2.1.insights.lookup k with
          | none => simp [h'', hlk]
          | some l => rw [h''] at h2'; simp at h2'
        | some l =>
          rw [hlk] at h1'
          cases h' : owr.2.1.insights.lookup k with
          | none => rw [h'] at h1'; simp at h1'
          | some l1 =>
            rw [h'] at h1'
            simp only [Option.map_some', Option.some.injEq] at h1'
            rw [h'] at h2'
            simp only [Option.map_some'] at h2'
            rw [h2']
            simp only [Option.map_some', Option.some.injEq, List.map_cons,
              List.sum_cons]
            omega

/-- Claim C10: register_hooks turns recording on and gives every
registered name a fresh empty log whatever was logged before; each sim
call then appends one entry per trial per registered name and never
clears, so two consecutive sim runs over the same dataset leave each
registered log holding twice the dataset's trial count. -/
theorem register_hooks_sim_appends (env_fn : τ → SimEnv τ σ ρ υ)
    (A : SimAgent σ υ) (params : List ℝ) (names : List String)
    (data : List (List τ)) (w0 : WrapState υ) (r0 : ρ)
    (o1 o2 : List (List τ × List (String × List (Option υ))))
    (w1 w2 : WrapState υ) (r1 r2 : ρ) (k : String)
    (h1 : wrapper.sim env_fn A params data (wrapper.register_hooks w0 names)
        r0 = some (o1, w1, r1))
    (h2 : wrapper.sim env_fn A params data w1 r1 = some (o2, w2, r2))
    (hk : k ∈ names) :
    (wrapper.register_hooks w0 names).use_hook = true
    ∧ (wrapper.register_hooks w0 names).insights.lookup k = some []
    ∧ (w2.insights.lookup k).map List.length
      = some (2 * (data.map List.length).sum) := by
  have hreg : (wrapper.register_hooks w0 names :
      WrapState υ).insights.lookup k = some [] :=
    lookup_register_init names k hk
  have hs1 := sim_lookup env_fn A params data (wrapper.register_hooks w0 names)
    r0 o1 w1 r1 h1 rfl
  have hs2 := sim_lookup env_fn A params data w1 r1 o2 w2 r2 h2 hs1.1
  refine ⟨rfl, hreg, ?_⟩
  have ha := hs1.2 k
  rw [hreg] at ha
  simp only [Option.map_some'] at ha
  have hb := hs2.2 k
  cases h' : w1.insights.lookup k with
  | none => rw [h'] at ha; simp at ha
  | some l1 =>
    rw [h'] at ha
    simp only [Option.map_some', Option.some.injEq] at ha
    rw [h'] at hb
    simp only [Option.map_some'] at hb
    rw [hb]
    simp only [Option.some.injEq]
    simp only [List.length_nil] at ha
    omega

/-- Witness for claim C10: one registered hook named h, a one-block
two-trial dataset, two consecutive sim runs; the log ends with four
entries. -/
theorem register_hooks_sim_appends_witness :
    wrapper.sim senvTriv sagentH [] [[(), ()]]
        (wrapper.register_hooks ⟨false, []⟩ ["h"]) ()
      = some ([([(), ()], [])], ⟨true, [("h", [0, 0])]⟩, ())
    ∧ wrapper.sim senvTriv sagentH [] [[(), ()]]
        ⟨true, [("h", [0, 0])]⟩ ()
      = some ([([(), ()], [])], ⟨true, [("h", [0, 0, 0, 0])]⟩, ())
    ∧ "h" ∈ ["h"]
    ∧ ((⟨true, [("h", [0, 0, 0, 0])]⟩ : WrapState ℕ).insights.lookup "h").map
        List.length
      = some (2 * ([[(), ()]].map List.length).sum) := by
  have hA : wrapper.sim senvTriv sagentH [] [[(), ()]]
      (wrapper.register_hooks ⟨false, []⟩ ["h"]) ()
      = some ([([(), ()], [])], ⟨true, [("h", [0, 0])]⟩, ()) := rfl
  have hB : wrapper.sim senvTriv sagentH [] [[(), ()]]
      ⟨true, [("h", [0, 0])]⟩ ()
      = some ([([(), ()], [])], ⟨true, [("h", [0, 0, 0, 0])]⟩, ()) := rfl
  have hk : "h" ∈ ["h"] := List.mem_singleton.mpr rfl
  exact ⟨hA, hB, hk,
    (register_hooks_sim_appends senvTriv sagentH [] ["h"] [[(), ()]]
      ⟨false, []⟩ () _ _ _ _ _ _ "h" hA hB hk).2.2⟩
